import Mathlib

/-!
Shallow embedding of `GetWeatherData.py` and `String2Pinyin.py` with proofs
about the month-range calculation, the HTML-table row parser, the date-range
filter, the spreadsheet writer, and the transliteration helper.
-/

namespace WeatherData

/-- A calendar date as carried by the Python `datetime` values that flow
through `GetWeatherData.py`; only the date fields matter to this program. -/
structure Date where
  year : Nat
  month : Nat
  day : Nat
deriving DecidableEq, Repr

/-- Python `datetime` comparison `a <= b`, restricted to the date fields:
lexicographic on `(year, month, day)`. -/
def dateLe (a b : Date) : Bool :=
  decide (a.year < b.year ∨ (a.year = b.year ∧
    (a.month < b.month ∨ (a.month = b.month ∧ a.day ≤ b.day))))

/-- Python `str(n).zfill(2)` for a natural number: pad the decimal rendering
on the left with zeros to width 2. -/
def zfill2 (n : Nat) : String :=
  if n < 10 then "0" ++ toString n else toString n

/-- `_get_month_list` from `GetWeatherData.py` (lines 44-62): encode the two
endpoint months as `year*100 + month`, iterate the integer range between the
encodings inclusive (`range(start_ym, end_ym + 1)`), decode each value with
`// 100` and `% 100`, apply the rollover correction when the decoded month
exceeds 12 (`year += 1; month = 1`), and format as
`f"{year}{str(month).zfill(2)}"`. -/
def _get_month_list (start_date end_date : Date) : List String :=
  let start_ym := start_date.year * 100 + start_date.month
  let end_ym := end_date.year * 100 + end_date.month
  (List.range (end_ym + 1 - start_ym)).map (fun i =>
    let ym := start_ym + i
    let year := ym / 100
    let month := ym % 100
    if month > 12 then
      toString (year + 1) ++ zfill2 1
    else
      toString year ++ zfill2 month)

/-- Instrumentation of the `_get_month_list` loop: whether some iteration
satisfies the `month > 12` test guarding the rollover branch
(`GetWeatherData.py` line 58). -/
def rollover_reached (start_date end_date : Date) : Bool :=
  let start_ym := start_date.year * 100 + start_date.month
  let end_ym := end_date.year * 100 + end_date.month
  (List.range (end_ym + 1 - start_ym)).any (fun i => (start_ym + i) % 100 > 12)

/-- Python `s.strip()` on an exploded string: drop whitespace characters from
both ends. -/
def pyStrip (l : List Char) : List Char :=
  ((l.dropWhile Char.isWhitespace).reverse.dropWhile Char.isWhitespace).reverse

/-- Python `s.split(sep, 1)` scanning: the text before the first occurrence
of `sep`, and, when `sep` occurs, `some` of the remainder after it. -/
def pySplit1 (sep : Char) : List Char → List Char × Option (List Char)
  | [] => ([], none)
  | c :: cs =>
    if c = sep then ([], some cs)
    else
      let r := pySplit1 sep cs
      (c :: r.1, r.2)

/-- Helper for Python `str.split()` with no separator: cut the exploded
string into its maximal runs of non-whitespace characters. `acc` holds the
characters of the current run in reverse. -/
def pyWordsAux (acc : List Char) : List Char → List (List Char)
  | [] => if acc.isEmpty then [] else [acc.reverse]
  | c :: cs =>
    if c.isWhitespace then
      if acc.isEmpty then pyWordsAux [] cs
      else acc.reverse :: pyWordsAux [] cs
    else pyWordsAux (c :: acc) cs

/-- The per-cell cleaning step `' '.join(text.split())` of
`_parse_html_to_data` (line 135): collapse whitespace runs to single spaces
and drop leading/trailing whitespace. -/
def cleanCell (s : String) : String :=
  String.intercalate " " ((pyWordsAux [] s.toList).map String.mk)

/-- Numeric value of a digit string, as `int()` computes it inside
`strptime`. -/
def digitsVal (l : List Char) : Nat :=
  l.foldl (fun n c => n * 10 + (c.toNat - 48)) 0

/-- Gregorian leap-year rule used by Python `datetime` validation. -/
def isLeapYear (y : Nat) : Bool :=
  y % 4 == 0 && (y % 100 != 0 || y % 400 == 0)

/-- Days in a month, as enforced by the `datetime` constructor that
`strptime` calls. -/
def daysInMonth (y m : Nat) : Nat :=
  if m = 2 then (if isLeapYear y then 29 else 28)
  else if m = 4 ∨ m = 6 ∨ m = 9 ∨ m = 11 then 30
  else 31

/-- `datetime.strptime(date_str, "%Y年%m月%d日")` as called at line 143 of
`GetWeatherData.py`. `%Y` matches exactly four digits, `%m` a one- or
two-digit month value in 1-12, `%d` a one- or two-digit day value in 1-31;
the whole string must be consumed, and the resulting triple must be a valid
`datetime` (year at least 1, day within the month). Every failure raises
`ValueError`, modelled as `none`. -/
def parseDate (s : String) : Option Date :=
  match s.toList with
  | y1 :: y2 :: y3 :: y4 :: '年' :: rest =>
    if y1.isDigit && y2.isDigit && y3.isDigit && y4.isDigit then
      let y := digitsVal [y1, y2, y3, y4]
      let mds := rest.takeWhile Char.isDigit
      match rest.dropWhile Char.isDigit with
      | '月' :: rest2 =>
        let m := digitsVal mds
        if 1 ≤ mds.length ∧ mds.length ≤ 2 ∧ 1 ≤ m ∧ m ≤ 12 then
          let dds := rest2.takeWhile Char.isDigit
          match rest2.dropWhile Char.isDigit with
          | ['日'] =>
            let d := digitsVal dds
            if 1 ≤ dds.length ∧ dds.length ≤ 2 ∧ 1 ≤ d ∧ d ≤ 31 ∧
                1 ≤ y ∧ d ≤ daysInMonth y m then
              some ⟨y, m, d⟩
            else none
          | _ => none
        else none
      | _ => none
    else none
  | _ => none

/-- One parsed daily weather record (`GetWeatherData.py` lines 164-171). -/
structure Record where
  date : Date
  weather_day_night : String
  high_temp : String
  low_temp : String
  wind_day : String
  wind_night : String
deriving DecidableEq, Repr

/-- The temperature / wind splitting step of `_parse_html_to_data`
(lines 152-162): when the cell text contains a slash it is split at the
first slash by `split('/', 1)` and both parts are stripped; otherwise the
first component is the whole text and the second is the empty string. -/
def splitSlashStrip (s : String) : String × String :=
  match pySplit1 '/' s.toList with
  | (_, none) => (s, "")
  | (before, some after) => (String.mk (pyStrip before), String.mk (pyStrip after))

/-- The per-row body of the parsing loop of `_parse_html_to_data`
(lines 131-171): clean every cell, require exactly four cells, parse the
date cell (skipping the row on failure), split the temperature and wind
cells, and build the record. `none` means the row contributes no record. -/
def parseRow (cols : List String) : Option Record :=
  let col_texts := cols.map cleanCell
  match col_texts with
  | [date_str, weather_day_night, temperature, wind] =>
    match parseDate date_str with
    | none => none
    | some date_dt =>
      let ht := splitSlashStrip temperature
      let wd := splitSlashStrip wind
      some ⟨date_dt, weather_day_night, ht.1, ht.2, wd.1, wd.2⟩
  | _ => none

/-- The row loop of `_parse_html_to_data`: iterate `rows[1:]` (the first row
is the table header) and append one record per row that parses. -/
def parseRows (rows : List (List String)) : List Record :=
  (rows.drop 1).filterMap parseRow

/-- The slice of the document tree that `_parse_html_to_data` consults: a
`table.b` is its rows, each row the `get_text(strip=True)` of its `td`/`th`
cells. -/
structure TableB where
  rows : List (List String)

/-- The optional `table.b` beneath the `div.wdetail` container. -/
structure WDetail where
  tableB : Option TableB

/-- The parsed document: an optional `div.wdetail` container. -/
structure Soup where
  wdetail : Option WDetail

/-- `_parse_html_to_data` (lines 105-172). The argument mirrors the pair
returned by `_fetch_monthly_data`: `(content, encoding)`, where a failed
fetch yields `None` content. `decode` abstracts
`BeautifulSoup(content, 'lxml', from_encoding=encoding)`. The guard
`if not html_content[0]` is truthy-falsy: it fires for absent content and
for empty bytes alike. -/
def parse_html_to_data (decode : List UInt8 → Option String → Soup)
    (html_content : Option (List UInt8) × Option String) : List Record :=
  match html_content.1 with
  | none => []
  | some content =>
    if content.isEmpty then []
    else
      match (decode content html_content.2).wdetail with
      | none => []
      | some wdetail_div =>
        match wdetail_div.tableB with
        | none => []
        | some table => parseRows table.rows

/-- `_filter_data_by_date` (lines 175-189): keep the records whose date lies
within the inclusive range, then sort ascending by date. Python `list.sort`
with a key is a stable sort, modelled by the stable `List.mergeSort`. -/
def _filter_data_by_date (data : List Record) (start_date end_date : Date) :
    List Record :=
  let filtered := data.filter
    (fun d => dateLe start_date d.date && dateLe d.date end_date)
  filtered.mergeSort (fun a b => dateLe a.date b.date)


/-- The output spreadsheet as `_write_to_excel` determines it: the file path
it is saved under, the sheet title, and the appended rows of cell strings. -/
structure Spreadsheet where
  filename : String
  sheetTitle : String
  cells : List (List String)
deriving DecidableEq, Repr

/-- Left-pad the decimal rendering of `n` with zeros to width `w`. -/
def zfill (w n : Nat) : String :=
  let s := toString n
  String.mk (List.replicate (w - s.length) '0') ++ s

/-- `date.strftime("%Y-%m-%d")` as used at line 212: zero-padded four-digit
year, two-digit month and two-digit day. -/
def strftimeYMD (d : Date) : String :=
  zfill 4 d.year ++ "-" ++ zfill 2 d.month ++ "-" ++ zfill 2 d.day

/-- The fixed header row written at line 207. -/
def headerRow : List String :=
  ["日期", "天气状况(白天/夜间)", "最高气温", "最低气温", "风力风向(白天)", "风力风向(夜间)"]

/-- The row appended for one record (lines 210-218): the formatted date
followed by the five string fields in order. -/
def recordRow (r : Record) : List String :=
  [strftimeYMD r.date, r.weather_day_night, r.high_temp, r.low_temp,
   r.wind_day, r.wind_night]

/-- `_write_to_excel` (lines 192-225): with no data, log a warning and
return without writing; otherwise build a workbook whose single sheet is
titled "Last30DaysWeather", append the header row and one row per record,
and save it under `output/{city}Last30DaysWeather.xlsx`. The returned value
is the file written, `none` when no file is produced. -/
def _write_to_excel (data : List Record) (city : String) : Option Spreadsheet :=
  if data.isEmpty then none
  else
    some ⟨"output/" ++ city ++ "Last30DaysWeather.xlsx", "Last30DaysWeather",
      headerRow :: data.map recordRow⟩


/-- Python `inputStr.replace('市', '')` (`String2Pinyin.py` line 5): with a
single-character pattern and an empty replacement this deletes every
occurrence of the character. -/
def replaceShi (inputStr : String) : String :=
  String.mk (inputStr.toList.filter (fun c => c != '市'))

/-- Modelled from the spec: `pypinyin.lazy_pinyin` is a third-party library
whose code is not part of this repository. The spec describes it as a
context-free single-character mapping producing one romanized syllable per
character, so it is modelled as mapping an arbitrary per-character syllable
table over the characters of the string. -/
def lazy_pinyin (table : Char → String) (s : String) : List String :=
  s.toList.map table

/-- `String2Pinyin` (`String2Pinyin.py` lines 3-13): remove every
occurrence of '市', transliterate the remaining characters, and join the
syllables with no separator. -/
def String2Pinyin (table : Char → String) (inputStr : String) : String :=
  let modifiedStr := replaceShi inputStr
  let pinyinList := lazy_pinyin table modifiedStr
  String.join pinyinList


theorem pySplit1_snd_eq_none {sep : Char} {l : List Char} :
    (pySplit1 sep l).2 = none ↔ sep ∉ l := by
  induction l with
  | nil => simp [pySplit1]
  | cons c cs ih =>
    by_cases hc : c = sep
    · subst hc; simp [pySplit1]
    · simp [pySplit1, hc, ih, Ne.symm hc]

theorem pySplit1_fst_eq (sep : Char) (l : List Char) :
    (pySplit1 sep l).1 = l.takeWhile (fun c => c != sep) := by
  induction l with
  | nil => simp [pySplit1]
  | cons c cs ih =>
    by_cases hc : c = sep
    · subst hc; simp [pySplit1, List.takeWhile_cons]
    · simp [pySplit1, hc, ih, List.takeWhile_cons]

theorem pySplit1_snd_eq {sep : Char} {l after : List Char}
    (h : (pySplit1 sep l).2 = some after) :
    after = (l.dropWhile (fun c => c != sep)).drop 1 := by
  induction l with
  | nil => simp [pySplit1] at h
  | cons c cs ih =>
    by_cases hc : c = sep
    · subst hc
      simp [pySplit1] at h
      simp [List.dropWhile_cons, h]
    · simp [pySplit1, hc] at h
      simpa [List.dropWhile_cons, hc] using ih h

theorem mem_pyStrip {c : Char} {l : List Char} (h : c ∈ pyStrip l) : c ∈ l := by
  unfold pyStrip at h
  rw [List.mem_reverse] at h
  have h2 := (List.dropWhile_sublist _).mem h
  rw [List.mem_reverse] at h2
  exact (List.dropWhile_sublist _).mem h2

/-- C1: on a range that crosses a year boundary, `_get_month_list` does not
return one token per calendar month touched: for 2024-12-15 to 2025-01-10 it
returns 90 tokens, among them 88 copies of "202501" and the token "202500"
which names no calendar month, instead of the two tokens ["202412", "202501"]
the claim requires. -/
theorem month_list_year_boundary_bug :
    (_get_month_list ⟨2024, 12, 15⟩ ⟨2025, 1, 10⟩).length = 90 ∧
    List.count "202501" (_get_month_list ⟨2024, 12, 15⟩ ⟨2025, 1, 10⟩) = 88 ∧
    "202500" ∈ _get_month_list ⟨2024, 12, 15⟩ ⟨2025, 1, 10⟩ ∧
    ¬ (_get_month_list ⟨2024, 12, 15⟩ ⟨2025, 1, 10⟩).Nodup ∧
    _get_month_list ⟨2024, 12, 15⟩ ⟨2025, 1, 10⟩ ≠ ["202412", "202501"] := by
  decide

/-- C2 counterexample: the rollover branch is reachable under the claimed
precondition. The dates 2024-12-15 and 2025-01-10 are real calendar dates
(months 12 and 1) with start ≤ end, yet an iteration of the loop (the one at
encoded value 202413) satisfies `month > 12`. -/
theorem rollover_reached_at_year_boundary :
    dateLe ⟨2024, 12, 15⟩ ⟨2025, 1, 10⟩ = true ∧
    rollover_reached ⟨2024, 12, 15⟩ ⟨2025, 1, 10⟩ = true := by
  decide

/-- C2 (amended): the rollover branch of `_get_month_list` is unreachable for
every input satisfying startDate ≤ endDate in which startDate and endDate fall
in the same calendar year (months in 1-12); when the inclusive range crosses a
year boundary the branch is reachable. -/
theorem rollover_unreachable_same_year (s e : Date)
    (hs1 : 1 ≤ s.month) (hs12 : s.month ≤ 12)
    (he1 : 1 ≤ e.month) (he12 : e.month ≤ 12)
    (hy : s.year = e.year) (hle : dateLe s e = true) :
    rollover_reached s e = false := by
  simp only [dateLe, decide_eq_true_eq] at hle
  simp only [rollover_reached, List.any_eq_false, List.mem_range,
    decide_eq_true_eq]
  intro i hi
  omega

/-- Witness for the amended C2 theorem at a concrete same-year input. -/
theorem rollover_unreachable_same_year_witness :
    rollover_reached ⟨2024, 1, 15⟩ ⟨2024, 3, 10⟩ = false :=
  rollover_unreachable_same_year ⟨2024, 1, 15⟩ ⟨2024, 3, 10⟩
    (by decide) (by decide) (by decide) (by decide) (by decide) (by decide)

/-- C3: `_get_month_list` on (2024-01-15, 2024-03-10) returns exactly
["202401", "202402", "202403"], and for every calendar date d (month in 1-12)
`_get_month_list d d` is the single-element list holding d's year-month
token. -/
theorem month_list_examples :
    _get_month_list ⟨2024, 1, 15⟩ ⟨2024, 3, 10⟩ = ["202401", "202402", "202403"] ∧
    ∀ d : Date, 1 ≤ d.month → d.month ≤ 12 →
      _get_month_list d d = [toString d.year ++ zfill2 d.month] := by
  refine ⟨by decide, ?_⟩
  intro d h1 h12
  simp only [_get_month_list]
  have hr : d.year * 100 + d.month + 1 - (d.year * 100 + d.month) = 1 := by omega
  rw [hr, show List.range 1 = [0] from rfl, List.map_singleton, Nat.add_zero]
  have hmod : (d.year * 100 + d.month) % 100 = d.month := by omega
  have hdiv : (d.year * 100 + d.month) / 100 = d.year := by omega
  rw [hmod, hdiv, if_neg (by omega)]

/-- Witness for C3's universally quantified part at a concrete date. -/
theorem month_list_examples_witness :
    _get_month_list ⟨2025, 7, 3⟩ ⟨2025, 7, 3⟩ = [toString 2025 ++ zfill2 7] :=
  month_list_examples.2 ⟨2025, 7, 3⟩ (by decide) (by decide)

theorem takeWhile_append_stop {α : Type} {p : α → Bool} {l₁ l₂ : List α} {x : α}
    (h : ∀ c ∈ l₁, p c = true) (hx : p x = false) :
    (l₁ ++ x :: l₂).takeWhile p = l₁ ∧ (l₁ ++ x :: l₂).dropWhile p = x :: l₂ := by
  induction l₁ with
  | nil => simp [List.takeWhile_cons, List.dropWhile_cons, hx]
  | cons a as ih =>
    have ha : p a = true := h a (by simp)
    have hrest := ih (fun c hc => h c (by simp [hc]))
    simp [List.takeWhile_cons, List.dropWhile_cons, ha, hrest.1, hrest.2]

theorem pySplit1_append {sep : Char} {l₁ l₂ : List Char} (h : sep ∉ l₁) :
    pySplit1 sep (l₁ ++ sep :: l₂) = (l₁, some l₂) := by
  induction l₁ with
  | nil => simp [pySplit1]
  | cons a as ih =>
    have ha : ¬ a = sep := fun hq => h (by simp [hq])
    have := ih (fun hq => h (by simp [hq]))
    simp [pySplit1, ha, this]

theorem stringMk_toList (s : String) : String.mk s.toList = s := rfl

/-- C4 counterexample: for the cell text "a / b" (which contains a slash),
the part left of the first slash is "a " and the part right of it is " b",
but the code produces the stripped pair ("a", "b"), which differs from
("a ", " b"), so the left part does not become the high-temperature field
verbatim. -/
theorem split_left_part_counterexample :
    splitSlashStrip "a / b" = ("a", "b") ∧
    "a / b".toList.takeWhile (fun c => c != '/') = "a ".toList ∧
    ("a / b".toList.dropWhile (fun c => c != '/')).drop 1 = " b".toList ∧
    (("a" : String), ("b" : String)) ≠ (("a " : String), (" b" : String)) := by
  decide

/-- C4 (amended): for every temperature or wind cell text: if the text
contains '/', it is split at the first '/' and each part is stripped of
leading and trailing whitespace, the left part becoming high temp (resp. day
wind) and the right part low temp (resp. night wind); if it contains no '/',
the high (resp. day) field equals the full text and the low (resp. night)
field is the empty string. In particular "H/L" yields exactly (H, L)
whenever H is slash-free and neither H nor L carries leading or trailing
whitespace. -/
theorem splitSlashStrip_spec :
    (∀ s : String, '/' ∈ s.toList →
      splitSlashStrip s =
        (String.mk (pyStrip (s.toList.takeWhile (fun c => c != '/'))),
         String.mk (pyStrip ((s.toList.dropWhile (fun c => c != '/')).drop 1)))) ∧
    (∀ s : String, '/' ∉ s.toList → splitSlashStrip s = (s, "")) ∧
    (∀ H L : String, '/' ∉ H.toList →
      pyStrip H.toList = H.toList → pyStrip L.toList = L.toList →
      splitSlashStrip (H ++ "/" ++ L) = (H, L)) := by
  refine ⟨?_, ?_, ?_⟩
  · intro s hs
    unfold splitSlashStrip
    rcases hsp : pySplit1 '/' s.toList with ⟨before, o⟩
    cases o with
    | none =>
      have hn : (pySplit1 '/' s.toList).2 = none := by rw [hsp]
      exact absurd hs (pySplit1_snd_eq_none.mp hn)
    | some after =>
      have hb : before = s.toList.takeWhile (fun c => c != '/') := by
        have hfst := congrArg Prod.fst hsp
        rw [pySplit1_fst_eq] at hfst
        exact hfst.symm
      have hsnd : (pySplit1 '/' s.toList).2 = some after := by rw [hsp]
      have ha := pySplit1_snd_eq hsnd
      rw [hb, ha]
  · intro s hs
    unfold splitSlashStrip
    rcases hsp : pySplit1 '/' s.toList with ⟨before, o⟩
    cases o with
    | none => rfl
    | some after =>
      have hn : (pySplit1 '/' s.toList).2 = none := pySplit1_snd_eq_none.mpr hs
      rw [hsp] at hn
      exact absurd hn (by simp)
  · intro H L hH hHs hLs
    have hlist : (H ++ "/" ++ L).toList = H.toList ++ '/' :: L.toList := by
      simp
    unfold splitSlashStrip
    rw [hlist, pySplit1_append hH]
    dsimp only
    rw [hHs, hLs]
    rfl

/-- Witness for the amended C4 theorem on a concrete "H/L" cell text. -/
theorem splitSlashStrip_spec_witness :
    splitSlashStrip ("25℃" ++ "/" ++ "17℃") = ("25℃", "17℃") :=
  splitSlashStrip_spec.2.2 "25℃" "17℃" (by decide) (by decide) (by decide)

/-- C5: a row whose cleaned cell list does not have exactly 4 cells produces
no record (the model is total, so nothing is raised); a 4-cell row whose
cleaned date text does not parse produces no record; and such a skipped row
leaves the records contributed by all remaining rows of the same table
unchanged, one record per remaining valid row. -/
theorem row_arity_and_date_skip :
    (∀ cols : List String, cols.length ≠ 4 → parseRow cols = none) ∧
    (∀ a b c d : String, parseDate (cleanCell a) = none →
      parseRow [a, b, c, d] = none) ∧
    (∀ (header row : List String) (pre post : List (List String)),
      parseRow row = none →
      parseRows (header :: (pre ++ row :: post)) =
        parseRows (header :: (pre ++ post))) := by
  refine ⟨?_, ?_, ?_⟩
  · intro cols h
    match cols with
    | [] => rfl
    | [_] => rfl
    | [_, _] => rfl
    | [_, _, _] => rfl
    | [_, _, _, _] => exact absurd rfl h
    | _ :: _ :: _ :: _ :: _ :: _ => rfl
  · intro a b c d h
    simp [parseRow, h]
  · intro header row pre post h
    simp [parseRows, List.filterMap_append, h]

/-- Witness for C5: a table whose second data row has an invalid month is
parsed to the same records as the table without that row. -/
theorem row_arity_and_date_skip_witness :
    parseRows [["日期", "天气", "气温", "风力"],
      ["2024年13月1日", "晴", "25℃ / 17℃", "北风 / 南风"],
      ["2024年1月2日", "晴", "25℃ / 17℃", "北风 / 南风"]] =
    parseRows [["日期", "天气", "气温", "风力"],
      ["2024年1月2日", "晴", "25℃ / 17℃", "北风 / 南风"]] :=
  row_arity_and_date_skip.2.2 ["日期", "天气", "气温", "风力"]
    ["2024年13月1日", "晴", "25℃ / 17℃", "北风 / 南风"] []
    [["2024年1月2日", "晴", "25℃ / 17℃", "北风 / 南风"]] (by decide)

/-- C9: an absent fetch result (content component `None`) makes
`_parse_html_to_data` return the empty record sequence and nothing fails,
whatever the decoder and the encoding component are. -/
theorem parse_html_absent_fetch (decode : List UInt8 → Option String → Soup)
    (enc : Option String) : parse_html_to_data decode (none, enc) = [] := rfl

theorem splitSlashStrip_fst_no_slash (s : String) :
    '/' ∉ (splitSlashStrip s).1.toList := by
  unfold splitSlashStrip
  rcases hsp : pySplit1 '/' s.toList with ⟨before, o⟩
  cases o with
  | none =>
    have hn : (pySplit1 '/' s.toList).2 = none := by rw [hsp]
    exact pySplit1_snd_eq_none.mp hn
  | some after =>
    intro hmem
    have h1 : '/' ∈ pyStrip before := hmem
    have h2 := mem_pyStrip h1
    have hb : before = s.toList.takeWhile (fun c => c != '/') := by
      have hfst := congrArg Prod.fst hsp
      rw [pySplit1_fst_eq] at hfst
      exact hfst.symm
    rw [hb] at h2
    have h3 := List.mem_takeWhile_imp h2
    simp at h3

theorem parseRow_no_slash {cols : List String} {r : Record}
    (h : parseRow cols = some r) :
    '/' ∉ r.high_temp.toList ∧ '/' ∉ r.wind_day.toList := by
  simp only [parseRow] at h
  split at h
  · split at h
    · simp at h
    · injection h with h
      subst h
      exact ⟨splitSlashStrip_fst_no_slash _, splitSlashStrip_fst_no_slash _⟩
  · simp at h

/-- C10: every record in the output of `_parse_html_to_data` has a
`high_temp` field and a `wind_day` field that contain no '/' character: any
remaining slashes of the cell end up in `low_temp` / `wind_night`, and a
slash-free cell contributes a slash-free high/day field. -/
theorem record_fields_no_slash (decode : List UInt8 → Option String → Soup)
    (hc : Option (List UInt8) × Option String) (r : Record)
    (h : r ∈ parse_html_to_data decode hc) :
    '/' ∉ r.high_temp.toList ∧ '/' ∉ r.wind_day.toList := by
  obtain ⟨c, e⟩ := hc
  unfold parse_html_to_data at h
  cases c with
  | none => exact absurd h (by simp)
  | some content =>
    dsimp only at h
    split at h
    · simp at h
    · split at h
      · simp at h
      · split at h
        · simp at h
        · simp only [parseRows, List.mem_filterMap] at h
          obtain ⟨cols, _, hrow⟩ := h
          exact parseRow_no_slash hrow

theorem dateLe_trans {a b c : Date} (h1 : dateLe a b = true)
    (h2 : dateLe b c = true) : dateLe a c = true := by
  simp only [dateLe, decide_eq_true_eq] at h1 h2 ⊢
  omega

theorem dateLe_total (a b : Date) : (dateLe a b || dateLe b a) = true := by
  simp only [dateLe, Bool.or_eq_true, decide_eq_true_eq]
  omega

theorem dateLe_refl (a : Date) : dateLe a a = true := by
  simp [dateLe]

/-- C6: the output of `_filter_data_by_date` is sorted ascending by date;
every output record lies within the inclusive bounds; the sort is stable
(two equal-date records that survive the filter keep their relative input
order); and the operation is idempotent: filtering its own output again with
the same bounds returns the identical sequence. -/
theorem filter_data_by_date_spec (data : List Record) (s e : Date) :
    (_filter_data_by_date data s e).Pairwise
      (fun a b => dateLe a.date b.date = true) ∧
    (∀ r ∈ _filter_data_by_date data s e,
      dateLe s r.date = true ∧ dateLe r.date e = true) ∧
    (∀ a b : Record, a.date = b.date →
      List.Sublist [a, b]
        (data.filter (fun d => dateLe s d.date && dateLe d.date e)) →
      List.Sublist [a, b] (_filter_data_by_date data s e)) ∧
    _filter_data_by_date (_filter_data_by_date data s e) s e =
      _filter_data_by_date data s e := by
  have htrans : ∀ a b c : Record, dateLe a.date b.date → dateLe b.date c.date →
      dateLe a.date c.date := fun _ _ _ h1 h2 => dateLe_trans h1 h2
  have htotal : ∀ a b : Record, (dateLe a.date b.date || dateLe b.date a.date) :=
    fun a b => dateLe_total a.date b.date
  have hsorted : (_filter_data_by_date data s e).Pairwise
      (fun a b => dateLe a.date b.date = true) :=
    List.sorted_mergeSort htrans htotal _
  have hbounds : ∀ r ∈ _filter_data_by_date data s e,
      dateLe s r.date = true ∧ dateLe r.date e = true := by
    intro r hr
    unfold _filter_data_by_date at hr
    rw [List.mem_mergeSort, List.mem_filter] at hr
    have := hr.2
    simp only [Bool.and_eq_true] at this
    exact this
  refine ⟨hsorted, hbounds, ?_, ?_⟩
  · intro a b hab hsub
    have hle : dateLe a.date b.date = true := by
      rw [hab]; exact dateLe_refl b.date
    exact List.pair_sublist_mergeSort htrans htotal hle hsub
  · have hself : (_filter_data_by_date data s e).filter
        (fun d => dateLe s d.date && dateLe d.date e) =
        _filter_data_by_date data s e := by
      rw [List.filter_eq_self]
      intro r hr
      have := hbounds r hr
      simp [this.1, this.2]
    have hdef : ∀ X : List Record, _filter_data_by_date X s e =
        (X.filter (fun d => dateLe s d.date && dateLe d.date e)).mergeSort
          (fun a b => dateLe a.date b.date) := fun _ => rfl
    rw [hdef (_filter_data_by_date data s e), hself]
    exact List.mergeSort_of_sorted hsorted

/-- Witness for C6: a concrete three-record input with two equal-date
records, exercising the stability clause. -/
theorem filter_data_by_date_spec_witness :
    List.Sublist
      [Record.mk ⟨2024, 1, 5⟩ "a" "" "" "" "", Record.mk ⟨2024, 1, 5⟩ "b" "" "" "" ""]
      (_filter_data_by_date
        [Record.mk ⟨2024, 1, 7⟩ "c" "" "" "" "",
         Record.mk ⟨2024, 1, 5⟩ "a" "" "" "" "",
         Record.mk ⟨2024, 1, 5⟩ "b" "" "" "" ""]
        ⟨2024, 1, 1⟩ ⟨2024, 1, 31⟩) :=
  (filter_data_by_date_spec
    [Record.mk ⟨2024, 1, 7⟩ "c" "" "" "" "",
     Record.mk ⟨2024, 1, 5⟩ "a" "" "" "" "",
     Record.mk ⟨2024, 1, 5⟩ "b" "" "" "" ""]
    ⟨2024, 1, 1⟩ ⟨2024, 1, 31⟩).2.2.1
    (Record.mk ⟨2024, 1, 5⟩ "a" "" "" "" "")
    (Record.mk ⟨2024, 1, 5⟩ "b" "" "" "" "")
    (by decide) (by decide)

/-- C7: `_write_to_excel` writes no file for an empty record list; for a
non-empty list it writes one sheet named exactly "Last30DaysWeather" under
`output/{city}Last30DaysWeather.xlsx`, whose first row is the fixed
six-column header and which has exactly one further row per record, the row
of record `i` being its date formatted `YYYY-MM-DD` followed by the five
string fields in order. -/
theorem write_to_excel_spec (city : String) :
    _write_to_excel [] city = none ∧
    ∀ data : List Record, data ≠ [] →
      ∃ f : Spreadsheet, _write_to_excel data city = some f ∧
        f.filename = "output/" ++ city ++ "Last30DaysWeather.xlsx" ∧
        f.sheetTitle = "Last30DaysWeather" ∧
        f.cells.length = data.length + 1 ∧
        f.cells.head? = some headerRow ∧
        ∀ (i : Nat) (h : i < data.length),
          f.cells[i + 1]? = some (recordRow (data.get ⟨i, h⟩)) := by
  refine ⟨rfl, ?_⟩
  intro data hdata
  refine ⟨⟨"output/" ++ city ++ "Last30DaysWeather.xlsx", "Last30DaysWeather",
    headerRow :: data.map recordRow⟩, ?_, rfl, rfl, by simp, rfl, ?_⟩
  · unfold _write_to_excel
    rw [if_neg (by simpa using hdata)]
  · intro i h
    simp [List.getElem?_eq_getElem, h]

/-- Witness for C7 on a one-record list. -/
theorem write_to_excel_spec_witness :
    ∃ f : Spreadsheet,
      _write_to_excel [Record.mk ⟨2024, 1, 5⟩ "晴" "25℃" "17℃" "北风" "南风"]
        "shenzhen" = some f ∧
      f.filename = "output/" ++ "shenzhen" ++ "Last30DaysWeather.xlsx" ∧
      f.sheetTitle = "Last30DaysWeather" ∧
      f.cells.length = [Record.mk ⟨2024, 1, 5⟩ "晴" "25℃" "17℃" "北风" "南风"].length + 1 ∧
      f.cells.head? = some headerRow ∧
      ∀ (i : Nat) (h : i < [Record.mk ⟨2024, 1, 5⟩ "晴" "25℃" "17℃" "北风" "南风"].length),
        f.cells[i + 1]? = some (recordRow
          ([Record.mk ⟨2024, 1, 5⟩ "晴" "25℃" "17℃" "北风" "南风"].get ⟨i, h⟩)) :=
  (write_to_excel_spec "shenzhen").2
    [Record.mk ⟨2024, 1, 5⟩ "晴" "25℃" "17℃" "北风" "南风"] (by decide)

/-- C8: for every input string, `String2Pinyin` removes every occurrence of
'市' anywhere in the string, maps each remaining character to its syllable,
and concatenates the syllables with no separating characters; empty input
yields empty output; and the suffix-stripping step maps "深圳市" to "深圳"
and "市" to "". Stated for every choice of per-character syllable table. -/
theorem string2pinyin_spec (table : Char → String) :
    (∀ inputStr : String,
      String2Pinyin table inputStr =
        String.join ((inputStr.toList.filter (fun c => c != '市')).map table) ∧
      '市' ∉ (replaceShi inputStr).toList) ∧
    replaceShi "深圳市" = "深圳" ∧
    replaceShi "市" = "" ∧
    String2Pinyin table "" = "" := by
  refine ⟨?_, by decide, by decide, rfl⟩
  intro inputStr
  refine ⟨rfl, ?_⟩
  intro hmem
  have := (List.mem_filter.mp hmem).2
  simp at this

/-- Witness for C10 on a concrete parsed document. -/
theorem record_fields_no_slash_witness :
    '/' ∉ (Record.mk ⟨2024, 1, 2⟩ "晴 / 多云" "25℃" "17℃" "北风" "南风").high_temp.toList ∧
    '/' ∉ (Record.mk ⟨2024, 1, 2⟩ "晴 / 多云" "25℃" "17℃" "北风" "南风").wind_day.toList :=
  record_fields_no_slash
    (fun _ _ => ⟨some ⟨some ⟨[["日期", "天气", "气温", "风力"],
      ["2024年1月2日", "晴 / 多云", "25℃ / 17℃", "北风 / 南风"]]⟩⟩⟩)
    (some [1], none)
    (Record.mk ⟨2024, 1, 2⟩ "晴 / 多云" "25℃" "17℃" "北风" "南风")
    (by decide)

end WeatherData
